import Mathlib

/-!
# Verification of the ARP resolver (`arp.c`) of syo16/Protocol-stack

A shallow embedding of the ARP subsystem: the wire codec for ARP-over-Ethernet
messages, the fixed-capacity cache with linear scans, the receive handler
`arp_rx`, the expiry sweep `arp_table_patrol`, and the resolver `arp_resolve`.

Modelling conventions:
* Octets are `Nat` with explicit `< 256` bounds where they matter; 16-bit
  fields are recomposed as `hi * 256 + lo` (network byte order).
* A protocol address (`ip_addr_t`, a `uint32_t` holding the four on-wire
  octets) is modelled as its opaque 4-octet list, compared by equality, which
  is exactly how the C treats it.
* The table is a `List ArpEntry`; the C array has 4096 slots but every scan is
  length-generic, so all theorems hold for any table length, 4096 included.
  Pointers into the table are modelled as indices.
* `time(..)` / `gettimeofday(..)` readings are explicit `now : Int` parameters.
* Device transmission results come from an explicit `txRet : Int` oracle
  parameter; every attempted transmit is recorded as an `Effect.tx`.
* `pthread_cond_broadcast` is recorded as an `Effect.signal i` on entry `i`;
  the sweep throttle is instrumented with an `Effect.sweep now` marker.
* The resolver's `pthread_cond_timedwait` loop takes an explicit list of
  wakeup events, each giving the wait result and the state of the awaited
  entry observed after re-acquiring the lock (concurrent modification of that
  entry).  An exhausted event list stands for the deadline passing with no
  further wakeup (`ETIMEDOUT`, entry as last observed).
* The null-pointer dereference of `entry->netif->dev` in the pending-payload
  drain of `arp_table_update` is modelled by returning `none`.
-/

namespace ArpStack

/-- 6-octet Ethernet link (hardware) address, as a list of octets. -/
abbrev HwAddr := List Nat

/-- 4-octet IPv4 protocol address (`ip_addr_t`), treated as an opaque octet
tuple, exactly as the C code treats the `uint32_t` it stores. -/
abbrev IpAddr := List Nat

def ETHERNET_ADDR_LEN : Nat := 6
def IP_ADDR_LEN : Nat := 4

/-- Modelled from the spec: `ethernet.h` is not in the corpus; EtherType
0x0800 identifies IPv4 (glossary). -/
def ETHERNET_TYPE_IP : Nat := 0x0800

/-- Modelled from the spec: `ethernet.h` is not in the corpus; EtherType
0x0806 identifies ARP (glossary). -/
def ETHERNET_TYPE_ARP : Nat := 0x0806

/-- Modelled from the spec: `ethernet.h` is not in the corpus; the all-zero
link address denotes "unresolved" (§3). -/
def ETHERNET_ADDR_ANY : HwAddr := List.replicate 6 0

/-- Modelled from the spec: `ethernet.h` is not in the corpus; the all-ones
link address denotes broadcast (§3). -/
def ETHERNET_ADDR_BROADCAST : HwAddr := List.replicate 6 255

def ARP_HRD_ETHERNET : Nat := 1
def ARP_OP_REQUEST : Nat := 1
def ARP_OP_REPLY : Nat := 2
def ARP_TABLE_TIMEOUT_SEC : Int := 300

/-- Modelled from the spec: `arp.h` is not in the corpus; the integer encoding
`{FOUND=1, QUERY=0, ERROR=-1}` is stated to be part of the contract (§6). -/
def ARP_RESOLVE_FOUND : Int := 1

/-- Modelled from the spec: `arp.h` is not in the corpus; `QUERY` encodes 0. -/
def ARP_RESOLVE_QUERY : Int := 0

/-- Modelled from the spec: `arp.h` is not in the corpus; `ERROR` encodes -1. -/
def ARP_RESOLVE_ERROR : Int := -1

/-- A network device (`struct netdev`); `id` models pointer identity, `addr`
the link-layer address used as `sha` of outgoing ARP messages. -/
structure Netdev where
  id : Nat
  addr : HwAddr
deriving DecidableEq

/-- An IPv4 interface attached to a device (`struct netif` viewed through
`struct netif_ip`): the owning device and the unicast protocol address. -/
structure Netif where
  dev : Netdev
  unicast : IpAddr
deriving DecidableEq

/-- The decoded ARP-over-Ethernet message (`struct arp_ethernet`): the fixed
header fields plus sender/target hardware and protocol addresses. -/
structure ArpEth where
  hrd : Nat
  pro : Nat
  hln : Nat
  pln : Nat
  op : Nat
  sha : HwAddr
  spa : IpAddr
  tha : HwAddr
  tpa : IpAddr
deriving DecidableEq

/-- Reading of the packed 28-octet layout: big-endian 16-bit fields at offsets
0, 2, 6; single octets at 4, 5; then `sha`, `spa`, `tha`, `tpa` at offsets
8, 14, 18, 24. Mirrors the `(struct arp_ethernet *)packet` cast. -/
def decodeArp (p : List Nat) : ArpEth :=
  { hrd := p.getD 0 0 * 256 + p.getD 1 0
  , pro := p.getD 2 0 * 256 + p.getD 3 0
  , hln := p.getD 4 0
  , pln := p.getD 5 0
  , op := p.getD 6 0 * 256 + p.getD 7 0
  , sha := (p.drop 8).take 6
  , spa := (p.drop 14).take 4
  , tha := (p.drop 18).take 6
  , tpa := (p.drop 24).take 4 }

/-- Big-endian serialization of a 16-bit field into its two octets. -/
def encodeU16 (v : Nat) : List Nat := [v / 256, v % 256]

/-- Writing of the packed 28-octet layout, field by field; the in-memory image
the C code hands to `tx` for the `struct arp_ethernet` it fills. -/
def encodeArp (m : ArpEth) : List Nat :=
  encodeU16 m.hrd ++ encodeU16 m.pro ++ [m.hln, m.pln] ++ encodeU16 m.op
    ++ m.sha ++ m.spa ++ m.tha ++ m.tpa

/-- One slot of the ARP cache (`struct arp_entry`).  The condition variable is
not state; its broadcasts are recorded as effects.  `data`/`len` model the
pending payload buffer and its recorded length (the C keeps them as separate
fields, and `arp_entry_clear` resets `len` only when `data` was non-null). -/
structure ArpEntry where
  used : Bool
  pa : IpAddr
  ha : HwAddr
  timestamp : Int
  data : Option (List Nat)
  len : Nat
  netif : Option Netif
deriving DecidableEq

instance : Inhabited ArpEntry :=
  ⟨⟨false, List.replicate 4 0, List.replicate 6 0, 0, none, 0, none⟩⟩

/-- The ARP module's mutable state: the cache array (`arp_table`) and the
global sweep anchor (the file-scope `timestamp` variable). -/
structure ArpState where
  table : List ArpEntry
  timestamp : Int
deriving DecidableEq

/-- Observable side effects of an operation, in program order: an attempted
device transmit (`dev->ops->tx`), a `pthread_cond_broadcast` on the condition
variable of entry `i`, the cross-device warning of `arp_table_update`, and an
instrumentation marker for each run of the expiry sweep. -/
inductive Effect where
  | tx (dev : Netdev) (etherType : Nat) (payload : List Nat) (len : Nat) (dst : HwAddr)
  | signal (i : Nat)
  | warning
  | sweep (now : Int)
deriving DecidableEq

/-- Index of the first entry satisfying `p`, mirroring the C `for` loops that
return a pointer into `arp_table`. -/
def scanIdx (p : ArpEntry → Bool) : List ArpEntry → Option Nat
  | [] => none
  | e :: rest => if p e then some 0 else Option.map (· + 1) (scanIdx p rest)

/-- The scan predicate of `arp_table_freespace`: `!entry->used`. -/
def isFree (e : ArpEntry) : Bool := !e.used

/-- The scan predicate of `arp_table_select`: `entry->used && entry->pa == *pa`. -/
def matchesPa (pa : IpAddr) (e : ArpEntry) : Bool := e.used && decide (e.pa = pa)

/-- `arp_table_freespace`: first non-used slot, or none when the table is full. -/
def arp_table_freespace (t : List ArpEntry) : Option Nat := scanIdx isFree t

/-- `arp_table_select`: the used entry whose `pa` matches, or none. -/
def arp_table_select (t : List ArpEntry) (pa : IpAddr) : Option Nat :=
  scanIdx (matchesPa pa) t

/-- `arp_table_insert`: take the first free slot, mark it used, copy `pa` and
`ha`, stamp the timestamp, broadcast on the slot's condition variable.  The
other fields (`data`, `len`, `netif`) are left untouched, as in the C. -/
def arp_table_insert (s : ArpState) (pa : IpAddr) (ha : HwAddr) (now : Int) :
    Int × ArpState × List Effect :=
  match arp_table_freespace s.table with
  | none => (-1, s, [])
  | some i =>
    let e := s.table.getD i default
    let e1 := { e with used := true, pa := pa, ha := ha, timestamp := now }
    (0, { s with table := s.table.set i e1 }, [Effect.signal i])

/-- `arp_entry_clear`: zero `used`, `pa`, `ha`, `timestamp`; free the payload
when present (only then is `len` reset, mirroring the `if (entry->data)`
block); null `netif`.  No broadcast happens here. -/
def arp_entry_clear (e : ArpEntry) : ArpEntry :=
  { e with
    used := false, pa := List.replicate 4 0, ha := List.replicate 6 0,
    timestamp := 0, data := none,
    len := if e.data.isSome then 0 else e.len, netif := none }

/-- `arp_table_update`: merge a sender binding into an existing entry.  On a
miss, return `-1` with no side effect.  On a hit, copy the new `ha`, stamp the
timestamp, drain any pending payload (transmitting it as an EtherType-IPv4
frame on the device stored in the entry's `netif`, warning when the delivering
device differs), and broadcast.  `none` models the C's dereference of
`entry->netif->dev` when `netif` is NULL. -/
def arp_table_update (s : ArpState) (dev : Netdev) (pa : IpAddr) (ha : HwAddr)
    (now : Int) : Option (Int × ArpState × List Effect) :=
  match arp_table_select s.table pa with
  | none => some (-1, s, [])
  | some i =>
    let e := s.table.getD i default
    let e1 := { e with ha := ha, timestamp := now }
    match e1.data with
    | none => some (0, { s with table := s.table.set i e1 }, [Effect.signal i])
    | some d =>
      match e1.netif with
      | none => none
      | some nf =>
        let warnEffs : List Effect := if nf.dev ≠ dev then [Effect.warning] else []
        let e2 := { e1 with data := none, len := 0 }
        some (0, { s with table := s.table.set i e2 },
          warnEffs ++ [Effect.tx nf.dev ETHERNET_TYPE_IP d e1.len e1.ha, Effect.signal i])

/-- The per-entry step of `arp_table_patrol`: clear the entry when it is used
and its age, measured against the just-updated global sweep anchor `ts`,
exceeds `ARP_TABLE_TIMEOUT_SEC`. -/
def patrolStep (ts : Int) (e : ArpEntry) : ArpEntry :=
  if e.used && decide (ts - e.timestamp > ARP_TABLE_TIMEOUT_SEC) then arp_entry_clear e else e

/-- The broadcasts `arp_table_patrol` performs, one per entry it clears, in
index order. -/
def patrolSignals (ts : Int) (t : List ArpEntry) : List Effect :=
  (List.range t.length).filterMap fun i =>
    if (t.getD i default).used
        && decide (ts - (t.getD i default).timestamp > ARP_TABLE_TIMEOUT_SEC) then
      some (Effect.signal i)
    else none

/-- `arp_table_patrol`: sweep every used entry older than the TTL, clearing it
and broadcasting on its condition variable. -/
def arp_table_patrol (s : ArpState) : ArpState × List Effect :=
  ({ s with table := s.table.map (patrolStep s.timestamp) },
    patrolSignals s.timestamp s.table)

/-- `arp_send_request`: build the broadcast ARP REQUEST (`hrd = 1`,
`pro = 0x0800`, `hln = 6`, `pln = 4`, `op = 1`, `sha` and `spa` from the
interface, zero `tha`), transmit it, and propagate an `== -1` transmit result
as `-1`.  The frame is recorded whether or not the driver accepted it. -/
def arp_send_request (nif : Netif) (tpa : IpAddr) (txRet : Int) : Int × List Effect :=
  let request : ArpEth :=
    { hrd := ARP_HRD_ETHERNET, pro := ETHERNET_TYPE_IP, hln := ETHERNET_ADDR_LEN
    , pln := IP_ADDR_LEN, op := ARP_OP_REQUEST, sha := nif.dev.addr
    , spa := nif.unicast, tha := List.replicate 6 0, tpa := tpa }
  (if txRet = -1 then -1 else 0,
    [Effect.tx nif.dev ETHERNET_TYPE_ARP (encodeArp request) 28 ETHERNET_ADDR_BROADCAST])

/-- `arp_send_reply`: build the ARP REPLY (`op = 2`, `tha`/`tpa` from the
request's sender) and transmit it to `dst`, propagating a negative transmit
result as `-1`. -/
def arp_send_reply (nif : Netif) (tha : HwAddr) (tpa : IpAddr) (dst : HwAddr)
    (txRet : Int) : Int × List Effect :=
  let reply : ArpEth :=
    { hrd := ARP_HRD_ETHERNET, pro := ETHERNET_TYPE_IP, hln := ETHERNET_ADDR_LEN
    , pln := IP_ADDR_LEN, op := ARP_OP_REPLY, sha := nif.dev.addr
    , spa := nif.unicast, tha := tha, tpa := tpa }
  (if txRet < 0 then -1 else 0,
    [Effect.tx nif.dev ETHERNET_TYPE_ARP (encodeArp reply) 28 dst])

/-- The post-sweep tail of `arp_rx`: merge the sender binding via
`arp_table_update`, and — when the device has an IPv4 interface whose unicast
equals `tpa` — insert on a failed merge (ignoring `TableFull`) and answer a
REQUEST with a unicast REPLY to the sender.  `none` is the null `netif`
dereference inside `arp_table_update`.  Note: the C releases the cache lock
after the Update and re-acquires it before the Insert without re-checking the
table; this function runs the two critical sections back to back, which is
the single-thread schedule only.  The duplicate-entry window that the unlock
opens under concurrency is exhibited on the unfused critical sections in
`arp_rx_insert_window_duplicate`. -/
def arp_rx_merge (s : ArpState) (m : ArpEth) (dev : Netdev) (now : Int)
    (getNetif : Option Netif) (txRet : Int) : Option (ArpState × List Effect) :=
  match arp_table_update s dev m.spa m.sha now with
  | none => none
  | some (ur, s3, upEffs) =>
    match getNetif with
    | some nf =>
      if nf.unicast = m.tpa then
        let ins :=
          if ur = 0 then (s3, ([] : List Effect))
          else ((arp_table_insert s3 m.spa m.sha now).2.1, (arp_table_insert s3 m.spa m.sha now).2.2)
        let replyEffs :=
          if m.op = ARP_OP_REQUEST then (arp_send_reply nf m.sha m.spa m.sha txRet).2
          else []
        some (ins.1, upEffs ++ ins.2 ++ replyEffs)
      else some (s3, upEffs)
    | none => some (s3, upEffs)

/-- `arp_rx`: validate the frame (silently dropping malformed input before
touching any state), run the throttled sweep (anchoring `last_sweep_ts = now`
first), then hand over to `arp_rx_merge`.  `getNetif` is the result of
`netdev_get_netif(dev, NETIF_FAMILY_IPV4)`. -/
def arp_rx (s : ArpState) (packet : List Nat) (dev : Netdev) (now : Int)
    (getNetif : Option Netif) (txRet : Int) : Option (ArpState × List Effect) :=
  if packet.length < 28 then some (s, []) else
  let m := decodeArp packet
  if m.hrd ≠ ARP_HRD_ETHERNET then some (s, []) else
  if m.pro ≠ ETHERNET_TYPE_IP then some (s, []) else
  if m.hln ≠ ETHERNET_ADDR_LEN then some (s, []) else
  if m.pln ≠ IP_ADDR_LEN then some (s, []) else
  let swept :=
    if now - s.timestamp > 10 then
      let pr := arp_table_patrol { s with timestamp := now }
      (pr.1, Effect.sweep now :: pr.2)
    else (s, ([] : List Effect))
  match arp_rx_merge swept.1 m dev now getNetif txRet with
  | none => none
  | some (s4, e4) => some (s4, swept.2 ++ e4)

/-- Result of one `pthread_cond_timedwait` call: success (any wakeup before
the deadline, including a spurious one), `EINTR`, or `ETIMEDOUT`. -/
inductive WaitRet where
  | ok
  | eintr
  | etimedout
deriving DecidableEq

/-- The resolver's `do { .. } while (ret == EINTR)` wait loop.  Each event
carries the wait result and the awaited entry's state observed on wake (after
re-acquiring the lock); the loop re-waits only on `EINTR`.  An exhausted event
list stands for the deadline passing: `ETIMEDOUT` with the entry as last
observed. -/
def waitLoop (e : ArpEntry) : List (WaitRet × ArpEntry) → WaitRet × ArpEntry
  | [] => (WaitRet.etimedout, e)
  | (r, e') :: rest => if r = WaitRet.eintr then waitLoop e' rest else (r, e')

/-- What `arp_resolve` hands back: the return code, the cache state, the
effects in program order, and the six octets copied into the caller's `ha`
buffer when the code performed that copy (`none` = buffer left untouched). -/
structure ResolveOut where
  ret : Int
  state : ArpState
  effects : List Effect
  outHa : Option HwAddr
deriving DecidableEq

/-- `arp_resolve`: hit with resolved `ha` returns `FOUND` at once; hit with
all-zero `ha` retransmits a REQUEST and waits (the `events` list models the
wakeups); a miss allocates a slot, optionally copies the payload (`mallocOk`
models the `malloc` outcome), records `netif`, broadcasts a REQUEST, and
returns `QUERY`.  The transmit results of both `arp_send_request` calls are
discarded, as in the C. -/
def arp_resolve (s : ArpState) (nif : Netif) (pa : IpAddr) (now : Int)
    (data : Option (List Nat)) (mallocOk : Bool) (txRet : Int)
    (events : List (WaitRet × ArpEntry)) : ResolveOut :=
  match arp_table_select s.table pa with
  | some i =>
    let e := s.table.getD i default
    if e.ha = ETHERNET_ADDR_ANY then
      let effs := (arp_send_request nif pa txRet).2
      let w := waitLoop e events
      if w.2.used = false ∨ w.1 = WaitRet.etimedout then
        let table' :=
          if w.2.used then s.table.set i (arp_entry_clear w.2) else s.table.set i w.2
        { ret := ARP_RESOLVE_ERROR, state := { s with table := table' }
        , effects := effs, outHa := none }
      else
        { ret := ARP_RESOLVE_FOUND, state := { s with table := s.table.set i w.2 }
        , effects := effs, outHa := some w.2.ha }
    else
      { ret := ARP_RESOLVE_FOUND, state := s, effects := [], outHa := some e.ha }
  | none =>
    match arp_table_freespace s.table with
    | none => { ret := ARP_RESOLVE_ERROR, state := s, effects := [], outHa := none }
    | some i =>
      let e := s.table.getD i default
      match data with
      | some d =>
        if mallocOk then
          let e1 := { e with data := some d, len := d.length }
          let e2 := { e1 with used := true, pa := pa, timestamp := now, netif := some nif }
          { ret := ARP_RESOLVE_QUERY, state := { s with table := s.table.set i e2 }
          , effects := (arp_send_request nif pa txRet).2, outHa := none }
        else
          { ret := ARP_RESOLVE_ERROR
          , state := { s with table := s.table.set i { e with data := none } }
          , effects := [], outHa := none }
      | none =>
        let e2 := { e with used := true, pa := pa, timestamp := now, netif := some nif }
        { ret := ARP_RESOLVE_QUERY, state := { s with table := s.table.set i e2 }
        , effects := (arp_send_request nif pa txRet).2, outHa := none }

/-- One inbound delivery to `arp_rx`: the raw payload, the device it arrived
on, the clock reading, the device's IPv4 interface (if attached), and the
transmit-result oracle for any frame `arp_rx` sends. -/
structure RxInput where
  packet : List Nat
  dev : Netdev
  now : Int
  getNetif : Option Netif
  txRet : Int

/-- A sequence of `arp_rx` invocations, accumulating effects; `none` as soon
as one invocation hits the null-`netif` dereference. -/
def arpRxTrace (s : ArpState) : List RxInput → Option (ArpState × List Effect)
  | [] => some (s, [])
  | inp :: rest =>
    match arp_rx s inp.packet inp.dev inp.now inp.getNetif inp.txRet with
    | none => none
    | some (s', effs) =>
      (arpRxTrace s' rest).map fun r => (r.1, effs ++ r.2)

/-- The clock readings at which sweeps ran, extracted from an effect log. -/
def sweepTimes (effs : List Effect) : List Int :=
  effs.filterMap fun eff =>
    match eff with
    | Effect.sweep t => some t
    | _ => none

/-- Separation by more than 10 seconds: the sweep-throttle guarantee between
two clock readings. -/
def gapGT10 (a b : Int) : Prop := a + 10 < b

instance : IsTrans Int gapGT10 :=
  ⟨fun a b c h1 h2 => by unfold gapGT10 at *; omega⟩

instance (a b : Int) : Decidable (gapGT10 a b) := by
  unfold gapGT10
  infer_instance

/-! ## Concrete fixtures used by the closed evaluation theorems -/

/-- A concrete device with link address `02:00:00:00:00:01`. -/
def wDev : Netdev := ⟨0, [2, 0, 0, 0, 0, 1]⟩

/-- A second, distinct device (different pointer identity). -/
def wDev2 : Netdev := ⟨1, [2, 0, 0, 0, 0, 9]⟩

/-- `wDev`'s IPv4 interface with unicast `10.0.0.1`. -/
def wNif : Netif := ⟨wDev, [10, 0, 0, 1]⟩

/-- A concrete protocol address `10.0.0.2`. -/
def wPa : IpAddr := [10, 0, 0, 2]

/-- A free cache slot. -/
def wFreeEntry : ArpEntry := default

/-- A used entry for `wPa` in query-in-flight state (all-zero `ha`). -/
def wPendingEntry : ArpEntry :=
  { used := true, pa := wPa, ha := List.replicate 6 0, timestamp := 0,
    data := none, len := 0, netif := none }

/-- A used query-in-flight entry for `wPa` holding a pending payload. -/
def wPayloadEntry : ArpEntry :=
  { used := true, pa := wPa, ha := List.replicate 6 0, timestamp := 0,
    data := some [222, 173], len := 2, netif := some wNif }

/-- A well-formed 28-octet ARP REQUEST from `10.0.0.7` asking for `10.0.0.1`. -/
def wPkt : List Nat :=
  [0, 1, 8, 0, 6, 4, 0, 1, 2, 0, 0, 0, 0, 7, 10, 0, 0, 7, 0, 0, 0, 0, 0, 0, 10, 0, 0, 1]

/-- A well-formed 28-octet ARP REPLY from `10.0.0.2` (the address of
`wPayloadEntry`) to `10.0.0.1`. -/
def wPkt2 : List Nat :=
  [0, 1, 8, 0, 6, 4, 0, 2, 2, 0, 0, 0, 0, 2, 10, 0, 0, 2, 2, 0, 0, 0, 0, 1, 10, 0, 0, 1]

/-- Spec §8 invariant 1: for every protocol address, at most one cache entry
is used with that address. -/
def UniquePa (t : List ArpEntry) : Prop :=
  ∀ pa : IpAddr, t.countP (matchesPa pa) ≤ 1

/-- The part of spec §8 invariant 3 that the null-`netif` safety argument
needs: every entry holding a pending payload also records the interface that
attached it. -/
def PayloadHasNetif (t : List ArpEntry) : Prop :=
  ∀ e ∈ t, e.data.isSome = true → e.netif.isSome = true

/-- Two deliveries of `wPkt` at clock readings 100 and 200, no attached
IPv4 interface. -/
def wIns : List RxInput := [⟨wPkt, wDev, 100, none, 0⟩, ⟨wPkt, wDev, 200, none, 0⟩]

/-- The outcome of running `wIns` from a single free slot at sweep anchor 0. -/
def wTraceOut : ArpState × List Effect :=
  (arpRxTrace ⟨[wFreeEntry], 0⟩ wIns).getD (⟨[], 0⟩, [])

/-! ## Helper lemmas about the linear scans and the entry counts -/

theorem scanIdx_eq_none_iff {p : ArpEntry → Bool} {t : List ArpEntry} :
    scanIdx p t = none ↔ ∀ e ∈ t, p e = false := by
  induction t with
  | nil => simp [scanIdx]
  | cons x rest ih => by_cases h : p x <;> simp [scanIdx, h, ih]

theorem scanIdx_some_lt {p : ArpEntry → Bool} {t : List ArpEntry} {i : Nat}
    (h : scanIdx p t = some i) : i < t.length := by
  induction t generalizing i with
  | nil => simp [scanIdx] at h
  | cons x rest ih =>
    by_cases hx : p x
    · simp [scanIdx, hx] at h
      simp only [List.length_cons]
      omega
    · cases hs : scanIdx p rest with
      | none => simp [scanIdx, hx, hs] at h
      | some j =>
        simp [scanIdx, hx, hs] at h
        have hj := ih hs
        simp only [List.length_cons]
        omega

theorem scanIdx_some_getD {p : ArpEntry → Bool} {t : List ArpEntry} {i : Nat}
    (h : scanIdx p t = some i) : p (t.getD i default) = true := by
  induction t generalizing i with
  | nil => simp [scanIdx] at h
  | cons x rest ih =>
    by_cases hx : p x
    · simp [scanIdx, hx] at h
      obtain rfl : i = 0 := by omega
      simpa using hx
    · cases hs : scanIdx p rest with
      | none => simp [scanIdx, hx, hs] at h
      | some j =>
        simp [scanIdx, hx, hs] at h
        obtain rfl : i = j + 1 := by omega
        simpa using ih hs
theorem countP_set_of_not_old {p : ArpEntry → Bool} {t : List ArpEntry} {i : Nat}
    {e' : ArpEntry} (hi : i < t.length) (h : p (t.getD i default) = false) :
    (t.set i e').countP p = t.countP p + (if p e' then 1 else 0) := by
  induction t generalizing i with
  | nil => simp at hi
  | cons x rest ih =>
    cases i with
    | zero =>
      simp only [List.getD_cons_zero] at h
      simp [List.set_cons_zero, List.countP_cons, h]
    | succ n =>
      simp only [List.getD_cons_succ] at h
      simp only [List.set_cons_succ, List.countP_cons]
      rw [ih (by simpa using hi) h]
      omega
theorem getD_set_self {t : List ArpEntry} {i : Nat} {e d : ArpEntry} (hi : i < t.length) :
    (t.set i e).getD i d = e := by
  induction t generalizing i with
  | nil => simp at hi
  | cons x rest ih =>
    cases i with
    | zero => simp
    | succ n =>
      simp only [List.set_cons_succ, List.getD_cons_succ]
      exact ih (by simpa using hi)

theorem getD_mem {t : List ArpEntry} {i : Nat} {d : ArpEntry} (hi : i < t.length) :
    t.getD i d ∈ t := by
  induction t generalizing i with
  | nil => simp at hi
  | cons x rest ih =>
    cases i with
    | zero => simp
    | succ n =>
      simp only [List.getD_cons_succ]
      exact List.mem_cons_of_mem x (ih (by simpa using hi))


theorem getD_map {t : List ArpEntry} {i : Nat} {f : ArpEntry → ArpEntry}
    (hi : i < t.length) : (t.map f).getD i default = f (t.getD i default) := by
  induction t generalizing i with
  | nil => simp at hi
  | cons x rest ih =>
    cases i with
    | zero => simp
    | succ n =>
      simp only [List.map_cons, List.getD_cons_succ]
      exact ih (by simpa using hi)

/-! ## Claim theorems -/

/-- C9: for every 28-octet well-formed ARP-over-Ethernet message (hrd = 1,
pro = 0x0800, hln = 6, pln = 4, multi-octet fields in network byte order),
re-encoding the decoded field tuple reproduces the original 28 octets:
`encodeArp (decodeArp bytes) = bytes`. -/
theorem arp_codec_roundtrip (b : List Nat) (hlen : b.length = 28)
    (hoct : ∀ x ∈ b, x < 256)
    (hhrd : (decodeArp b).hrd = ARP_HRD_ETHERNET)
    (hpro : (decodeArp b).pro = ETHERNET_TYPE_IP)
    (hhln : (decodeArp b).hln = ETHERNET_ADDR_LEN)
    (hpln : (decodeArp b).pln = IP_ADDR_LEN) :
    encodeArp (decodeArp b) = b := by
  obtain ⟨b0, b, rfl⟩ := List.exists_of_length_succ b hlen
  replace hlen : b.length = 27 := by simp at hlen; omega
  obtain ⟨b1, b, rfl⟩ := List.exists_of_length_succ b hlen
  replace hlen : b.length = 26 := by simp at hlen; omega
  obtain ⟨b2, b, rfl⟩ := List.exists_of_length_succ b hlen
  replace hlen : b.length = 25 := by simp at hlen; omega
  obtain ⟨b3, b, rfl⟩ := List.exists_of_length_succ b hlen
  replace hlen : b.length = 24 := by simp at hlen; omega
  obtain ⟨b4, b, rfl⟩ := List.exists_of_length_succ b hlen
  replace hlen : b.length = 23 := by simp at hlen; omega
  obtain ⟨b5, b, rfl⟩ := List.exists_of_length_succ b hlen
  replace hlen : b.length = 22 := by simp at hlen; omega
  obtain ⟨b6, b, rfl⟩ := List.exists_of_length_succ b hlen
  replace hlen : b.length = 21 := by simp at hlen; omega
  obtain ⟨b7, b, rfl⟩ := List.exists_of_length_succ b hlen
  replace hlen : b.length = 20 := by simp at hlen; omega
  obtain ⟨b8, b, rfl⟩ := List.exists_of_length_succ b hlen
  replace hlen : b.length = 19 := by simp at hlen; omega
  obtain ⟨b9, b, rfl⟩ := List.exists_of_length_succ b hlen
  replace hlen : b.length = 18 := by simp at hlen; omega
  obtain ⟨b10, b, rfl⟩ := List.exists_of_length_succ b hlen
  replace hlen : b.length = 17 := by simp at hlen; omega
  obtain ⟨b11, b, rfl⟩ := List.exists_of_length_succ b hlen
  replace hlen : b.length = 16 := by simp at hlen; omega
  obtain ⟨b12, b, rfl⟩ := List.exists_of_length_succ b hlen
  replace hlen : b.length = 15 := by simp at hlen; omega
  obtain ⟨b13, b, rfl⟩ := List.exists_of_length_succ b hlen
  replace hlen : b.length = 14 := by simp at hlen; omega
  obtain ⟨b14, b, rfl⟩ := List.exists_of_length_succ b hlen
  replace hlen : b.length = 13 := by simp at hlen; omega
  obtain ⟨b15, b, rfl⟩ := List.exists_of_length_succ b hlen
  replace hlen : b.length = 12 := by simp at hlen; omega
  obtain ⟨b16, b, rfl⟩ := List.exists_of_length_succ b hlen
  replace hlen : b.length = 11 := by simp at hlen; omega
  obtain ⟨b17, b, rfl⟩ := List.exists_of_length_succ b hlen
  replace hlen : b.length = 10 := by simp at hlen; omega
  obtain ⟨b18, b, rfl⟩ := List.exists_of_length_succ b hlen
  replace hlen : b.length = 9 := by simp at hlen; omega
  obtain ⟨b19, b, rfl⟩ := List.exists_of_length_succ b hlen
  replace hlen : b.length = 8 := by simp at hlen; omega
  obtain ⟨b20, b, rfl⟩ := List.exists_of_length_succ b hlen
  replace hlen : b.length = 7 := by simp at hlen; omega
  obtain ⟨b21, b, rfl⟩ := List.exists_of_length_succ b hlen
  replace hlen : b.length = 6 := by simp at hlen; omega
  obtain ⟨b22, b, rfl⟩ := List.exists_of_length_succ b hlen
  replace hlen : b.length = 5 := by simp at hlen; omega
  obtain ⟨b23, b, rfl⟩ := List.exists_of_length_succ b hlen
  replace hlen : b.length = 4 := by simp at hlen; omega
  obtain ⟨b24, b, rfl⟩ := List.exists_of_length_succ b hlen
  replace hlen : b.length = 3 := by simp at hlen; omega
  obtain ⟨b25, b, rfl⟩ := List.exists_of_length_succ b hlen
  replace hlen : b.length = 2 := by simp at hlen; omega
  obtain ⟨b26, b, rfl⟩ := List.exists_of_length_succ b hlen
  replace hlen : b.length = 1 := by simp at hlen; omega
  obtain ⟨b27, b, rfl⟩ := List.exists_of_length_succ b hlen
  obtain rfl : b = [] := by simpa using hlen
  simp only [decodeArp, List.getD_cons_zero, List.getD_cons_succ] at hhrd hpro hhln hpln
  simp only [List.forall_mem_cons, List.not_mem_nil] at hoct
  obtain ⟨o0, o1, o2, o3, o4, o5, o6, o7, orest⟩ := hoct
  simp [decodeArp, encodeArp, encodeU16, ARP_HRD_ETHERNET, ETHERNET_TYPE_IP,
    ETHERNET_ADDR_LEN, IP_ADDR_LEN] at hhrd hpro hhln hpln ⊢
  omega

/-- Witness for `arp_codec_roundtrip`: a concrete well-formed REQUEST message
round-trips. -/
theorem arp_codec_roundtrip_witness :
    encodeArp (decodeArp wPkt) = wPkt :=
  arp_codec_roundtrip wPkt (by decide) (by decide) (by decide) (by decide)
    (by decide) (by decide)

/-- C1: issuing `arp_resolve(netif, pa, out_ha, NULL, 0)` on a cache state
with no used entry for `pa` and at least one free slot returns `QUERY`, and
afterwards exactly one cache entry is used with that `pa`; that entry's `ha`
is the all-zero link address and it holds no pending payload (`data = NULL`,
`len = 0`).  The cleanliness hypothesis on free slots is the spec §3 invariant
that entries with `used = false` contain no other meaningful state. -/
theorem arp_resolve_miss_no_payload (s : ArpState) (nif : Netif) (pa : IpAddr)
    (now : Int) (txRet : Int) (events : List (WaitRet × ArpEntry))
    (hclean : ∀ e ∈ s.table, e.used = false →
      e.ha = ETHERNET_ADDR_ANY ∧ e.data = none ∧ e.len = 0)
    (hmiss : arp_table_select s.table pa = none)
    (hfree : (arp_table_freespace s.table).isSome) :
    (arp_resolve s nif pa now none true txRet events).ret = ARP_RESOLVE_QUERY ∧
    (arp_resolve s nif pa now none true txRet events).state.table.countP (matchesPa pa) = 1 ∧
    ∀ e ∈ (arp_resolve s nif pa now none true txRet events).state.table,
      matchesPa pa e = true → e.ha = ETHERNET_ADDR_ANY ∧ e.data = none ∧ e.len = 0 := by
  obtain ⟨i, hi⟩ := Option.isSome_iff_exists.mp hfree
  have ilt : i < s.table.length := scanIdx_some_lt hi
  have ifree : isFree (s.table.getD i default) = true := scanIdx_some_getD hi
  have iused : (s.table.getD i default).used = false := by
    simpa [isFree] using ifree
  have hall : ∀ e ∈ s.table, matchesPa pa e = false :=
    scanIdx_eq_none_iff.mp hmiss
  have hzero : s.table.countP (matchesPa pa) = 0 :=
    List.countP_eq_zero.mpr (by intro a ha; simp [hall a ha])
  have imem : s.table.getD i default ∈ s.table := getD_mem ilt
  obtain ⟨cha, cdata, clen⟩ := hclean _ imem iused
  refine ⟨?_, ?_, ?_⟩
  · simp [arp_resolve, hmiss, hi]
  · simp only [arp_resolve, hmiss, hi]
    rw [countP_set_of_not_old ilt (by simp only [matchesPa, iused, Bool.false_and])]
    simp [hzero, matchesPa]
  · simp only [arp_resolve, hmiss, hi]
    intro e he hme
    rcases List.mem_or_eq_of_mem_set he with hmem | rfl
    · exact absurd hme (by simp [hall e hmem])
    · exact ⟨cha, cdata, clen⟩

/-- Witness for `arp_resolve_miss_no_payload`: concrete resolve of `10.0.0.2`
against a single free slot. -/
theorem arp_resolve_miss_no_payload_witness :
    (arp_resolve ⟨[wFreeEntry], 0⟩ wNif wPa 5 none true 0 []).ret = ARP_RESOLVE_QUERY ∧
    (arp_resolve ⟨[wFreeEntry], 0⟩ wNif wPa 5 none true 0 []).state.table.countP (matchesPa wPa) = 1 ∧
    ∀ e ∈ (arp_resolve ⟨[wFreeEntry], 0⟩ wNif wPa 5 none true 0 []).state.table,
      matchesPa wPa e = true → e.ha = ETHERNET_ADDR_ANY ∧ e.data = none ∧ e.len = 0 :=
  arp_resolve_miss_no_payload ⟨[wFreeEntry], 0⟩ wNif wPa 5 0 []
    (by decide) (by decide) (by decide)

/-- C2 (failing-input evaluation): on a query-in-flight entry, a single
spurious wakeup — `pthread_cond_timedwait` returning 0 before the deadline
with the entry unchanged, still used and `ha` still all-zero — makes
`arp_resolve` return `FOUND` and copy the all-zero link address into the
caller's buffer.  The wait loop re-waits only on `EINTR` and never re-checks
`ha` on wake, so the claim that `FOUND` always delivers a non-zero `ha` fails
on spurious wakeups. -/
theorem arp_resolve_spurious_wakeup_found_zero_ha :
    (arp_resolve ⟨[wPendingEntry], 0⟩ wNif wPa 5 none true 0
      [(WaitRet.ok, wPendingEntry)]).ret = ARP_RESOLVE_FOUND ∧
    (arp_resolve ⟨[wPendingEntry], 0⟩ wNif wPa 5 none true 0
      [(WaitRet.ok, wPendingEntry)]).outHa = some ETHERNET_ADDR_ANY := by
  decide

/-- C3 counterexample: the resolver's timed-out wait clears the entry — its
`used` flag transitions from `true` to `false` — yet no signal is broadcast
on the entry's channel: the only effect of the call is the retransmitted
REQUEST frame.  So not every Clear signals the entry's waiter channel. -/
theorem arp_resolve_timeout_clear_unsignaled :
    wPendingEntry.used = true ∧
    (arp_resolve ⟨[wPendingEntry], 0⟩ wNif wPa 5 none true 0 []).ret = ARP_RESOLVE_ERROR ∧
    ((arp_resolve ⟨[wPendingEntry], 0⟩ wNif wPa 5 none true 0
      []).state.table.getD 0 default).used = false ∧
    Effect.signal 0 ∉ (arp_resolve ⟨[wPendingEntry], 0⟩ wNif wPa 5 none true 0 []).effects := by
  decide

/-- C3 amended: the expiry sweep broadcasts on the channel of every entry it
clears (the broadcast sits next to the `arp_entry_clear` call in
`arp_table_patrol`), but `arp_entry_clear` itself does not signal, and
`arp_resolve` emits no signal on any path — in particular the Clear performed
when its wait times out or finds the entry no longer used is unsignaled, so a
`used` flag can transition to `false` without a signal on the entry's
channel. -/
theorem clear_signal_discipline (s : ArpState) (i : Nat)
    (hi : i < s.table.length)
    (hused : (s.table.getD i default).used = true)
    (hold : s.timestamp - (s.table.getD i default).timestamp > ARP_TABLE_TIMEOUT_SEC) :
    Effect.signal i ∈ (arp_table_patrol s).2 ∧
    ((arp_table_patrol s).1.table.getD i default).used = false ∧
    (∀ (s' : ArpState) (nif : Netif) (pa : IpAddr) (now txr : Int)
      (data : Option (List Nat)) (ok : Bool) (events : List (WaitRet × ArpEntry)) (j : Nat),
      Effect.signal j ∉ (arp_resolve s' nif pa now data ok txr events).effects) := by
  have hcond : ((s.table.getD i default).used
      && decide (s.timestamp - (s.table.getD i default).timestamp > ARP_TABLE_TIMEOUT_SEC))
      = true := by
    rw [hused]
    simpa using hold
  refine ⟨?_, ?_, ?_⟩
  · simp only [arp_table_patrol, patrolSignals, List.mem_filterMap]
    exact ⟨i, List.mem_range.mpr hi, by rw [hcond]; simp⟩
  · simp only [arp_table_patrol]
    rw [getD_map hi]
    unfold patrolStep
    rw [hcond]
    simp [arp_entry_clear]
  · intro s' nif pa now txr data ok events j
    unfold arp_resolve
    split
    · dsimp only
      split_ifs <;> simp [arp_send_request]
    · split
      · simp
      · split
        · dsimp only
          split_ifs <;> simp [arp_send_request]
        · dsimp only
          simp [arp_send_request]

/-- Witness for `clear_signal_discipline`: a sweep at time 400 over a single
entry stamped at time 0. -/
theorem clear_signal_discipline_witness :
    Effect.signal 0 ∈ (arp_table_patrol ⟨[wPendingEntry], 400⟩).2 ∧
    ((arp_table_patrol ⟨[wPendingEntry], 400⟩).1.table.getD 0 default).used = false ∧
    (∀ (s' : ArpState) (nif : Netif) (pa : IpAddr) (now txr : Int)
      (data : Option (List Nat)) (ok : Bool) (events : List (WaitRet × ArpEntry)) (j : Nat),
      Effect.signal j ∉ (arp_resolve s' nif pa now data ok txr events).effects) :=
  clear_signal_discipline ⟨[wPendingEntry], 400⟩ 0 (by decide) (by decide) (by decide)

/-- C4 counterexample: with the device transmit failing (returning -1),
`arp_resolve`'s miss path still returns `QUERY`, whose integer encoding is 0 —
not a non-zero code as the claim states. -/
theorem arp_resolve_txfail_returns_query :
    (arp_resolve ⟨[wFreeEntry], 0⟩ wNif wPa 5 none true (-1) []).ret = 0 := by
  decide

/-- C4 amended: a negative transmit result while `arp_resolve` sends its ARP
REQUEST is ignored entirely: the outcome — return code, cache state, effects
and output buffer — is identical to that of a successful transmit, so the
miss path returns `QUERY` (0) and the failure does not mutate cache state;
`arp_send_request` itself reports the failure as -1 but `arp_resolve` drops
that result. -/
theorem arp_resolve_ignores_txfail (s : ArpState) (nif : Netif) (pa : IpAddr)
    (now : Int) (data : Option (List Nat)) (ok : Bool)
    (events : List (WaitRet × ArpEntry)) :
    arp_resolve s nif pa now data ok (-1) events =
      arp_resolve s nif pa now data ok 0 events ∧
    (arp_send_request nif pa (-1)).1 = -1 := by
  constructor
  · rfl
  · rfl

theorem decodeArp_take {p : List Nat} :
    decodeArp (p.take 28) = decodeArp p := by
  have hg : ∀ k, k < 28 → (p.take 28).getD k 0 = p.getD k 0 := by
    intro k hk
    simp [List.getD, List.getElem?_take, hk]
  have hs : ∀ a b : Nat, a + b ≤ 28 → ((p.take 28).drop a).take b = (p.drop a).take b := by
    intro a b hab
    rw [List.drop_take, List.take_take]
    congr 1
    omega
  unfold decodeArp
  rw [hg 0 (by omega), hg 1 (by omega), hg 2 (by omega), hg 3 (by omega),
    hg 4 (by omega), hg 5 (by omega), hg 6 (by omega), hg 7 (by omega),
    hs 8 6 (by omega), hs 14 4 (by omega), hs 18 6 (by omega), hs 24 4 (by omega)]

/-- C6: when `arp_table_update` matches a used entry holding a pending
payload, it transmits that payload as an EtherType-IPv4 frame to the newly
learned link address using the device stored in the entry's `netif`, emits
the cross-device warning exactly when the delivering device differs from the
stored one, and afterwards the entry's payload pointer and length are
cleared. -/
theorem arp_table_update_drains_payload (s : ArpState) (dev : Netdev)
    (pa : IpAddr) (ha : HwAddr) (now : Int) (i : Nat) (d : List Nat) (nf : Netif)
    (hsel : arp_table_select s.table pa = some i)
    (hdata : (s.table.getD i default).data = some d)
    (hnet : (s.table.getD i default).netif = some nf) :
    ∃ s' effs, arp_table_update s dev pa ha now = some (0, s', effs) ∧
      Effect.tx nf.dev ETHERNET_TYPE_IP d (s.table.getD i default).len ha ∈ effs ∧
      (Effect.warning ∈ effs ↔ nf.dev ≠ dev) ∧
      (s'.table.getD i default).data = none ∧
      (s'.table.getD i default).len = 0 ∧
      (s'.table.getD i default).ha = ha := by
  have ilt := scanIdx_some_lt hsel
  unfold arp_table_update
  rw [hsel]
  dsimp only
  rw [hdata, hnet]
  dsimp only
  refine ⟨_, _, rfl, ?_, ?_, ?_, ?_, ?_⟩
  · by_cases hd : nf.dev = dev <;> simp [hd]
  · by_cases hd : nf.dev = dev <;> simp [hd]
  · rw [getD_set_self ilt]
  · rw [getD_set_self ilt]
  · rw [getD_set_self ilt]

/-- Witness for `arp_table_update_drains_payload`: a reply arriving on a
different device (`wDev2`) drains the buffered `[0xDE, 0xAD]` payload through
the entry's own device `wDev` with a warning. -/
theorem arp_table_update_drains_payload_witness :
    ∃ s' effs, arp_table_update ⟨[wPayloadEntry], 0⟩ wDev2 wPa [2, 0, 0, 0, 0, 2] 7
        = some (0, s', effs) ∧
      Effect.tx wNif.dev ETHERNET_TYPE_IP [222, 173]
        ((⟨[wPayloadEntry], 0⟩ : ArpState).table.getD 0 default).len [2, 0, 0, 0, 0, 2] ∈ effs ∧
      (Effect.warning ∈ effs ↔ wNif.dev ≠ wDev2) ∧
      (s'.table.getD 0 default).data = none ∧
      (s'.table.getD 0 default).len = 0 ∧
      (s'.table.getD 0 default).ha = [2, 0, 0, 0, 0, 2] :=
  arp_table_update_drains_payload ⟨[wPayloadEntry], 0⟩ wDev2 wPa [2, 0, 0, 0, 0, 2] 7
    0 [222, 173] wNif (by decide) (by decide) (by decide)

/-- C7: `arp_rx` drops an incoming packet silently, with no cache-state
change and no effects, whenever its length is below 28 octets or the decoded
`hrd`/`pro`/`hln`/`pln` checks fail; a packet of 28 or more octets is
processed from its first 28 octets only, trailing octets ignored. -/
theorem arp_rx_validation (s : ArpState) (packet : List Nat) (dev : Netdev)
    (now : Int) (gn : Option Netif) (txr : Int) :
    ((packet.length < 28 ∨ (decodeArp packet).hrd ≠ ARP_HRD_ETHERNET ∨
        (decodeArp packet).pro ≠ ETHERNET_TYPE_IP ∨
        (decodeArp packet).hln ≠ ETHERNET_ADDR_LEN ∨
        (decodeArp packet).pln ≠ IP_ADDR_LEN) →
      arp_rx s packet dev now gn txr = some (s, [])) ∧
    (28 ≤ packet.length →
      arp_rx s packet dev now gn txr = arp_rx s (packet.take 28) dev now gn txr) := by
  constructor
  · intro h
    unfold arp_rx
    dsimp only
    by_cases hlen : packet.length < 28
    · rw [if_pos hlen]
    · rw [if_neg hlen]
      by_cases h1 : (decodeArp packet).hrd ≠ ARP_HRD_ETHERNET
      · rw [if_pos h1]
      · rw [if_neg h1]
        by_cases h2 : (decodeArp packet).pro ≠ ETHERNET_TYPE_IP
        · rw [if_pos h2]
        · rw [if_neg h2]
          by_cases h3 : (decodeArp packet).hln ≠ ETHERNET_ADDR_LEN
          · rw [if_pos h3]
          · rw [if_neg h3]
            by_cases h4 : (decodeArp packet).pln ≠ IP_ADDR_LEN
            · rw [if_pos h4]
            · rcases h with h | h | h | h | h
              · exact absurd h hlen
              · exact absurd h h1
              · exact absurd h h2
              · exact absurd h h3
              · exact absurd h h4
  · intro hge
    have hlen28 : (packet.take 28).length = 28 := by
      simp [List.length_take]
      omega
    have h1 : ¬ packet.length < 28 := by omega
    unfold arp_rx
    rw [decodeArp_take, hlen28]
    rw [if_neg h1, if_neg (by omega : ¬ (28 : Nat) < 28)]

/-- Witness for `arp_rx_validation`: a 27-octet payload is dropped with no
state change, and a 29-octet payload is processed as its first 28 octets. -/
theorem arp_rx_validation_witness :
    arp_rx ⟨[wPendingEntry], 0⟩ (List.replicate 27 0) wDev 100 none 0
      = some (⟨[wPendingEntry], 0⟩, []) ∧
    arp_rx ⟨[wFreeEntry], 0⟩ (wPkt ++ [7]) wDev 5 (some wNif) 0
      = arp_rx ⟨[wFreeEntry], 0⟩ ((wPkt ++ [7]).take 28) wDev 5 (some wNif) 0 :=
  ⟨(arp_rx_validation ⟨[wPendingEntry], 0⟩ (List.replicate 27 0) wDev 100 none 0).1
      (by decide),
    (arp_rx_validation ⟨[wFreeEntry], 0⟩ (wPkt ++ [7]) wDev 5 (some wNif) 0).2
      (by decide)⟩

theorem sweepTimes_append (a b : List Effect) :
    sweepTimes (a ++ b) = sweepTimes a ++ sweepTimes b := by
  unfold sweepTimes
  exact List.filterMap_append a b _

theorem sweepTimes_cons_sweep (t : Int) (l : List Effect) :
    sweepTimes (Effect.sweep t :: l) = t :: sweepTimes l := rfl

theorem sweepTimes_patrolSignals (ts : Int) (t : List ArpEntry) :
    sweepTimes (patrolSignals ts t) = [] := by
  unfold patrolSignals
  generalize List.range t.length = l
  induction l with
  | nil => rfl
  | cons x l ih =>
    rw [List.filterMap_cons]
    by_cases h : ((t.getD x default).used
        && decide (ts - (t.getD x default).timestamp > ARP_TABLE_TIMEOUT_SEC)) = true
    · rw [if_pos h]
      simpa [sweepTimes] using ih
    · rw [if_neg h]
      exact ih

theorem arp_table_update_ts_effects {s : ArpState} {dev : Netdev} {pa : IpAddr}
    {ha : HwAddr} {now : Int} {ur : Int} {s' : ArpState} {effs : List Effect}
    (h : arp_table_update s dev pa ha now = some (ur, s', effs)) :
    s'.timestamp = s.timestamp ∧ sweepTimes effs = [] := by
  unfold arp_table_update at h
  cases hsel : arp_table_select s.table pa with
  | none =>
    rw [hsel] at h
    simp only [Option.some.injEq, Prod.mk.injEq] at h
    obtain ⟨-, h2, h3⟩ := h
    subst h2; subst h3
    exact ⟨rfl, rfl⟩
  | some i =>
    rw [hsel] at h
    dsimp only at h
    cases hd : (s.table.getD i default).data with
    | none =>
      rw [hd] at h
      simp only [Option.some.injEq, Prod.mk.injEq] at h
      obtain ⟨-, h2, h3⟩ := h
      subst h2; subst h3
      exact ⟨rfl, rfl⟩
    | some d =>
      rw [hd] at h
      dsimp only at h
      cases hn : (s.table.getD i default).netif with
      | none => rw [hn] at h; exact absurd h (by simp)
      | some nf =>
        rw [hn] at h
        simp only [Option.some.injEq, Prod.mk.injEq] at h
        obtain ⟨-, h2, h3⟩ := h
        subst h2; subst h3
        refine ⟨rfl, ?_⟩
        by_cases hw : nf.dev = dev <;> simp [hw, sweepTimes]

theorem arp_table_insert_ts_effects (s : ArpState) (pa : IpAddr) (ha : HwAddr)
    (now : Int) :
    (arp_table_insert s pa ha now).2.1.timestamp = s.timestamp ∧
    sweepTimes (arp_table_insert s pa ha now).2.2 = [] := by
  unfold arp_table_insert
  cases hf : arp_table_freespace s.table with
  | none => exact ⟨rfl, rfl⟩
  | some i => exact ⟨rfl, rfl⟩

theorem arp_rx_merge_ts_effects {s : ArpState} {m : ArpEth} {dev : Netdev}
    {now : Int} {gn : Option Netif} {txr : Int} {s1 : ArpState} {effs : List Effect}
    (h : arp_rx_merge s m dev now gn txr = some (s1, effs)) :
    s1.timestamp = s.timestamp ∧ sweepTimes effs = [] := by
  unfold arp_rx_merge at h
  cases hupd : arp_table_update s dev m.spa m.sha now with
  | none => rw [hupd] at h; exact absurd h (by simp)
  | some r =>
    obtain ⟨ur, s3, upEffs⟩ := r
    obtain ⟨hts3, hse3⟩ := arp_table_update_ts_effects hupd
    rw [hupd] at h
    dsimp only at h
    cases gn with
    | none =>
      dsimp only at h
      simp only [Option.some.injEq, Prod.mk.injEq] at h
      obtain ⟨h2, h3⟩ := h
      subst h2; subst h3
      exact ⟨hts3, hse3⟩
    | some nf =>
      dsimp only at h
      by_cases huni : nf.unicast = m.tpa
      · rw [if_pos huni] at h
        obtain ⟨hins1, hins2⟩ := arp_table_insert_ts_effects s3 m.spa m.sha now
        simp only [Option.some.injEq, Prod.mk.injEq] at h
        obtain ⟨h2, h3⟩ := h
        subst h2; subst h3
        constructor
        · by_cases hur : ur = 0 <;> simp [hur, hins1, hts3]
        · rw [sweepTimes_append, sweepTimes_append, hse3]
          have hi : sweepTimes (if ur = 0 then (s3, ([] : List Effect))
              else ((arp_table_insert s3 m.spa m.sha now).2.1,
                (arp_table_insert s3 m.spa m.sha now).2.2)).2 = [] := by
            by_cases hur : ur = 0
            · rw [if_pos hur]
              rfl
            · rw [if_neg hur]
              exact hins2
          have hr : sweepTimes (if m.op = ARP_OP_REQUEST
              then (arp_send_reply nf m.sha m.spa m.sha txr).2 else []) = [] := by
            by_cases hop : m.op = ARP_OP_REQUEST
            · rw [if_pos hop]
              rfl
            · rw [if_neg hop]
              rfl
          rw [hi, hr]
          rfl
      · rw [if_neg huni] at h
        simp only [Option.some.injEq, Prod.mk.injEq] at h
        obtain ⟨h2, h3⟩ := h
        subst h2; subst h3
        exact ⟨hts3, hse3⟩

theorem arp_rx_sweep_step {s : ArpState} {p : List Nat} {dev : Netdev} {now : Int}
    {gn : Option Netif} {txr : Int} {s1 : ArpState} {effs : List Effect}
    (h : arp_rx s p dev now gn txr = some (s1, effs)) :
    (now - s.timestamp > 10 ∧ sweepTimes effs = [now] ∧ s1.timestamp = now) ∨
    (sweepTimes effs = [] ∧ s1.timestamp = s.timestamp) := by
  unfold arp_rx at h
  by_cases hlen : p.length < 28
  · rw [if_pos hlen] at h
    simp only [Option.some.injEq, Prod.mk.injEq] at h
    obtain ⟨h2, h3⟩ := h
    subst h2; subst h3
    exact Or.inr ⟨rfl, rfl⟩
  · rw [if_neg hlen] at h
    dsimp only at h
    by_cases h1 : (decodeArp p).hrd ≠ ARP_HRD_ETHERNET
    · rw [if_pos h1] at h
      simp only [Option.some.injEq, Prod.mk.injEq] at h
      obtain ⟨h2, h3⟩ := h
      subst h2; subst h3
      exact Or.inr ⟨rfl, rfl⟩
    · rw [if_neg h1] at h
      by_cases h2 : (decodeArp p).pro ≠ ETHERNET_TYPE_IP
      · rw [if_pos h2] at h
        simp only [Option.some.injEq, Prod.mk.injEq] at h
        obtain ⟨ha, hb⟩ := h
        subst ha; subst hb
        exact Or.inr ⟨rfl, rfl⟩
      · rw [if_neg h2] at h
        by_cases h3 : (decodeArp p).hln ≠ ETHERNET_ADDR_LEN
        · rw [if_pos h3] at h
          simp only [Option.some.injEq, Prod.mk.injEq] at h
          obtain ⟨ha, hb⟩ := h
          subst ha; subst hb
          exact Or.inr ⟨rfl, rfl⟩
        · rw [if_neg h3] at h
          by_cases h4 : (decodeArp p).pln ≠ IP_ADDR_LEN
          · rw [if_pos h4] at h
            simp only [Option.some.injEq, Prod.mk.injEq] at h
            obtain ⟨ha, hb⟩ := h
            subst ha; subst hb
            exact Or.inr ⟨rfl, rfl⟩
          · rw [if_neg h4] at h
            by_cases hsw : now - s.timestamp > 10
            · rw [if_pos hsw] at h
              cases hm : arp_rx_merge (arp_table_patrol { s with timestamp := now }).1
                  (decodeArp p) dev now gn txr with
              | none => rw [hm] at h; exact absurd h (by simp)
              | some r =>
                obtain ⟨s4, e4⟩ := r
                obtain ⟨hts, hse⟩ := arp_rx_merge_ts_effects hm
                rw [hm] at h
                simp only [Option.some.injEq, Prod.mk.injEq] at h
                obtain ⟨ha, hb⟩ := h
                subst ha; subst hb
                refine Or.inl ⟨hsw, ?_, ?_⟩
                · rw [sweepTimes_append, hse, List.append_nil, sweepTimes_cons_sweep]
                  simp only [arp_table_patrol]
                  rw [sweepTimes_patrolSignals]
                · rw [hts]
                  rfl
            · rw [if_neg hsw] at h
              cases hm : arp_rx_merge s (decodeArp p) dev now gn txr with
              | none => rw [hm] at h; exact absurd h (by simp)
              | some r =>
                obtain ⟨s4, e4⟩ := r
                obtain ⟨hts, hse⟩ := arp_rx_merge_ts_effects hm
                rw [hm] at h
                simp only [Option.some.injEq, Prod.mk.injEq] at h
                obtain ⟨ha, hb⟩ := h
                subst ha; subst hb
                exact Or.inr ⟨by simpa [sweepTimes_append] using hse, hts⟩

theorem arpRxTrace_sweep_chain {ins : List RxInput} :
    ∀ {s s' : ArpState} {effs : List Effect}, arpRxTrace s ins = some (s', effs) →
    List.Chain' gapGT10 (s.timestamp :: sweepTimes effs) ∧
    (s.timestamp :: sweepTimes effs).getLast? = some s'.timestamp := by
  induction ins with
  | nil =>
    intro s s' effs h
    unfold arpRxTrace at h
    simp only [Option.some.injEq, Prod.mk.injEq] at h
    obtain ⟨h1, h2⟩ := h
    subst h1; subst h2
    exact ⟨List.chain'_singleton _, rfl⟩
  | cons inp rest ih =>
    intro s s' effs h
    unfold arpRxTrace at h
    cases hrx : arp_rx s inp.packet inp.dev inp.now inp.getNetif inp.txRet with
    | none => rw [hrx] at h; exact absurd h (by simp)
    | some r =>
      obtain ⟨s1, e1⟩ := r
      rw [hrx] at h
      dsimp only at h
      cases htr : arpRxTrace s1 rest with
      | none => rw [htr] at h; exact absurd h (by simp)
      | some r2 =>
        obtain ⟨s2, e2⟩ := r2
        rw [htr] at h
        simp only [Option.map_some', Option.some.injEq, Prod.mk.injEq] at h
        obtain ⟨h1, h2⟩ := h
        subst h1; subst h2
        obtain ⟨hch, hlast⟩ := ih htr
        rcases arp_rx_sweep_step hrx with ⟨hsw, hse, hts⟩ | ⟨hse, hts⟩
        · rw [sweepTimes_append, hse, List.singleton_append]
          rw [hts] at hch hlast
          constructor
          · exact List.chain'_cons.mpr ⟨by unfold gapGT10; omega, hch⟩
          · rw [List.getLast?_cons_cons]
            exact hlast
        · rw [sweepTimes_append, hse, List.nil_append]
          rw [hts] at hch hlast
          exact ⟨hch, hlast⟩

/-- C8: `arp_rx` runs the expiry sweep exactly when `now - last_sweep_ts`
exceeds 10 seconds, anchoring `last_sweep_ts = now` when it does, so over any
sequence of `arp_rx` invocations every two sweeps lie more than 10 seconds
apart. -/
theorem arp_rx_sweep_throttle :
    (∀ (s : ArpState) (p : List Nat) (dev : Netdev) (now : Int) (gn : Option Netif)
      (txr : Int) (s1 : ArpState) (effs : List Effect),
      arp_rx s p dev now gn txr = some (s1, effs) →
      ((now - s.timestamp > 10 ∧ sweepTimes effs = [now] ∧ s1.timestamp = now) ∨
        (sweepTimes effs = [] ∧ s1.timestamp = s.timestamp))) ∧
    (∀ (s : ArpState) (ins : List RxInput) (s' : ArpState) (effs : List Effect),
      arpRxTrace s ins = some (s', effs) →
      List.Pairwise gapGT10 (sweepTimes effs)) := by
  constructor
  · intro s p dev now gn txr s1 effs h
    exact arp_rx_sweep_step h
  · intro s ins s' effs h
    obtain ⟨hch, -⟩ := arpRxTrace_sweep_chain h
    exact (List.pairwise_cons.mp (List.chain'_iff_pairwise.mp hch)).2

/-- Witness for `arp_rx_sweep_throttle`: running `wIns` (two valid frames at
clocks 100 and 200) from anchor 0 sweeps twice, more than 10 seconds apart. -/
theorem arp_rx_sweep_throttle_witness :
    arpRxTrace ⟨[wFreeEntry], 0⟩ wIns = some wTraceOut ∧
    List.Pairwise gapGT10 (sweepTimes wTraceOut.2) :=
  ⟨by decide,
    arp_rx_sweep_throttle.2 ⟨[wFreeEntry], 0⟩ wIns wTraceOut.1 wTraceOut.2 (by decide)⟩

/-! ## Invariant-preservation lemmas -/
theorem payload_set {t : List ArpEntry} {i : Nat} {e' : ArpEntry}
    (hp : PayloadHasNetif t)
    (he' : e'.data.isSome = true → e'.netif.isSome = true) :
    PayloadHasNetif (t.set i e') := by
  intro x hx hdx
  rcases List.mem_or_eq_of_mem_set hx with hmem | rfl
  · exact hp x hmem hdx
  · exact he' hdx

theorem waitLoop_prop {P : ArpEntry → Prop} :
    ∀ {events : List (WaitRet × ArpEntry)} {e : ArpEntry}, P e →
      (∀ ev ∈ events, P ev.2) → P (waitLoop e events).2 := by
  intro events
  induction events with
  | nil =>
    intro e he _
    exact he
  | cons ev rest ih =>
    intro e he hev
    obtain ⟨r, e'⟩ := ev
    have hstep : waitLoop e ((r, e') :: rest)
        = if r = WaitRet.eintr then waitLoop e' rest else (r, e') := rfl
    rw [hstep]
    by_cases hr : r = WaitRet.eintr
    · rw [if_pos hr]
      exact ih (hev (r, e') (by simp)) (fun x hx => hev x (List.mem_cons_of_mem _ hx))
    · rw [if_neg hr]
      exact hev (r, e') (by simp)
theorem arp_table_insert_payload {s : ArpState} {pa : IpAddr} {ha : HwAddr}
    {now : Int} (hp : PayloadHasNetif s.table) :
    PayloadHasNetif (arp_table_insert s pa ha now).2.1.table := by
  unfold arp_table_insert
  cases hf : arp_table_freespace s.table with
  | none => exact hp
  | some i =>
    dsimp only
    exact payload_set hp
      (fun hd => hp (s.table.getD i default) (getD_mem (scanIdx_some_lt hf)) hd)
theorem arp_table_patrol_payload {s : ArpState} (hp : PayloadHasNetif s.table) :
    PayloadHasNetif (arp_table_patrol s).1.table := by
  intro x hx hdx
  unfold arp_table_patrol at hx
  dsimp only at hx
  obtain ⟨e, he, rfl⟩ := List.mem_map.mp hx
  unfold patrolStep at hdx ⊢
  by_cases hcl : (e.used
      && decide (s.timestamp - e.timestamp > ARP_TABLE_TIMEOUT_SEC)) = true
  · rw [if_pos hcl] at hdx
    simp [arp_entry_clear] at hdx
  · rw [if_neg hcl] at hdx ⊢
    exact hp e he hdx

theorem arp_table_update_payload {s : ArpState} {dev : Netdev} {pa : IpAddr}
    {ha : HwAddr} {now : Int} (hp : PayloadHasNetif s.table) :
    ∃ r, arp_table_update s dev pa ha now = some r ∧ PayloadHasNetif r.2.1.table := by
  unfold arp_table_update
  cases hsel : arp_table_select s.table pa with
  | none => exact ⟨(-1, s, []), rfl, hp⟩
  | some i =>
    have ilt := scanIdx_some_lt hsel
    dsimp only
    cases hd : (s.table.getD i default).data with
    | none =>
      refine ⟨_, rfl, payload_set hp ?_⟩
      intro hdx
      simp at hdx
    | some d =>
      have hnet : (s.table.getD i default).netif.isSome = true :=
        hp (s.table.getD i default) (getD_mem ilt) (by rw [hd]; rfl)
      obtain ⟨nf, hnf⟩ := Option.isSome_iff_exists.mp hnet
      rw [hnf]
      dsimp only
      refine ⟨_, rfl, payload_set hp ?_⟩
      intro hdx
      simp at hdx
theorem arp_rx_merge_payload {s : ArpState} {m : ArpEth} {dev : Netdev} {now : Int}
    {gn : Option Netif} {txr : Int} (hp : PayloadHasNetif s.table) :
    ∃ r, arp_rx_merge s m dev now gn txr = some r ∧ PayloadHasNetif r.1.table := by
  unfold arp_rx_merge
  obtain ⟨⟨ur, s3, upEffs⟩, hupd, hp3⟩ :
      ∃ r, arp_table_update s dev m.spa m.sha now = some r ∧
        PayloadHasNetif r.2.1.table :=
    arp_table_update_payload hp
  rw [hupd]
  dsimp only
  cases gn with
  | none => exact ⟨_, rfl, hp3⟩
  | some nf =>
    dsimp only
    by_cases huni : nf.unicast = m.tpa
    · rw [if_pos huni]
      by_cases hur : ur = 0
      · rw [if_pos hur]
        exact ⟨_, rfl, hp3⟩
      · rw [if_neg hur]
        exact ⟨_, rfl, arp_table_insert_payload hp3⟩
    · rw [if_neg huni]
      exact ⟨_, rfl, hp3⟩
theorem arp_resolve_payload {s : ArpState} {nif : Netif} {pa : IpAddr} {now : Int}
    {data : Option (List Nat)} {ok : Bool} {txr : Int}
    {events : List (WaitRet × ArpEntry)} (hp : PayloadHasNetif s.table)
    (hev : ∀ ev ∈ events, ev.2.data.isSome = true → ev.2.netif.isSome = true) :
    PayloadHasNetif (arp_resolve s nif pa now data ok txr events).state.table := by
  unfold arp_resolve
  cases hsel : arp_table_select s.table pa with
  | some i =>
    have ilt := scanIdx_some_lt hsel
    have hw : (waitLoop (s.table.getD i default) events).2.data.isSome = true →
        (waitLoop (s.table.getD i default) events).2.netif.isSome = true :=
      waitLoop_prop (P := fun e => e.data.isSome = true → e.netif.isSome = true)
        (hp _ (getD_mem ilt)) hev
    dsimp only
    by_cases hha : (s.table.getD i default).ha = ETHERNET_ADDR_ANY
    · rw [if_pos hha]
      by_cases hcond : (waitLoop (s.table.getD i default) events).2.used = false ∨
          (waitLoop (s.table.getD i default) events).1 = WaitRet.etimedout
      · rw [if_pos hcond]
        by_cases hu2 : (waitLoop (s.table.getD i default) events).2.used = true
        · rw [if_pos hu2]
          dsimp only
          refine payload_set hp ?_
          intro hdx
          simp [arp_entry_clear] at hdx
        · rw [if_neg hu2]
          dsimp only
          exact payload_set hp hw
      · rw [if_neg hcond]
        dsimp only
        exact payload_set hp hw
    · rw [if_neg hha]
      exact hp
  | none =>
    dsimp only
    cases hf : arp_table_freespace s.table with
    | none => exact hp
    | some i =>
      dsimp only
      cases data with
      | some d =>
        dsimp only
        by_cases hok : ok = true
        · rw [if_pos hok]
          exact payload_set hp (fun _ => rfl)
        · rw [if_neg hok]
          dsimp only
          refine payload_set hp ?_
          intro hdx
          simp at hdx
      | none =>
        dsimp only
        exact payload_set hp (fun _ => rfl)
theorem arp_rx_payload {s : ArpState} {p : List Nat} {dev : Netdev} {now : Int}
    {gn : Option Netif} {txr : Int} (hp : PayloadHasNetif s.table) :
    ∃ r, arp_rx s p dev now gn txr = some r ∧ PayloadHasNetif r.1.table := by
  unfold arp_rx
  by_cases hlen : p.length < 28
  · rw [if_pos hlen]
    exact ⟨(s, []), rfl, hp⟩
  · rw [if_neg hlen]
    dsimp only
    by_cases h1 : (decodeArp p).hrd ≠ ARP_HRD_ETHERNET
    · rw [if_pos h1]
      exact ⟨(s, []), rfl, hp⟩
    · rw [if_neg h1]
      by_cases h2 : (decodeArp p).pro ≠ ETHERNET_TYPE_IP
      · rw [if_pos h2]
        exact ⟨(s, []), rfl, hp⟩
      · rw [if_neg h2]
        by_cases h3 : (decodeArp p).hln ≠ ETHERNET_ADDR_LEN
        · rw [if_pos h3]
          exact ⟨(s, []), rfl, hp⟩
        · rw [if_neg h3]
          by_cases h4 : (decodeArp p).pln ≠ IP_ADDR_LEN
          · rw [if_pos h4]
            exact ⟨(s, []), rfl, hp⟩
          · rw [if_neg h4]
            by_cases hsw : now - s.timestamp > 10
            · rw [if_pos hsw]
              dsimp only
              obtain ⟨⟨s4, e4⟩, hm, hpr⟩ :
                  ∃ r, arp_rx_merge (arp_table_patrol { s with timestamp := now }).1
                      (decodeArp p) dev now gn txr = some r ∧
                    PayloadHasNetif r.1.table :=
                arp_rx_merge_payload
                  (arp_table_patrol_payload (s := { s with timestamp := now }) hp)
              rw [hm]
              exact ⟨_, rfl, hpr⟩
            · rw [if_neg hsw]
              dsimp only
              obtain ⟨⟨s4, e4⟩, hm, hpr⟩ :
                  ∃ r, arp_rx_merge s (decodeArp p) dev now gn txr = some r ∧
                    PayloadHasNetif r.1.table :=
                arp_rx_merge_payload hp
              rw [hm]
              exact ⟨_, rfl, hpr⟩
/-- C10: in any state where every entry holding a pending payload also has a
recorded `netif` (the resolver attaches both together under the lock, Insert
attaches neither, and Clear nulls both), `arp_rx` never reaches the
`entry->netif->dev` dereference of `arp_table_update` with a null `netif` —
it always returns a result — and every operation preserves the invariant. -/
theorem pending_payload_netif_safety (s : ArpState) (hp : PayloadHasNetif s.table) :
    (∀ (p : List Nat) (dev : Netdev) (now : Int) (gn : Option Netif) (txr : Int),
      ∃ r, arp_rx s p dev now gn txr = some r ∧ PayloadHasNetif r.1.table) ∧
    (∀ (nif : Netif) (pa : IpAddr) (now : Int) (data : Option (List Nat))
      (ok : Bool) (txr : Int) (events : List (WaitRet × ArpEntry)),
      (∀ ev ∈ events, ev.2.data.isSome = true → ev.2.netif.isSome = true) →
      PayloadHasNetif (arp_resolve s nif pa now data ok txr events).state.table) ∧
    PayloadHasNetif (arp_table_patrol s).1.table := by
  refine ⟨?_, ?_, arp_table_patrol_payload hp⟩
  · intro p dev now gn txr
    exact arp_rx_payload hp
  · intro nif pa now data ok txr events hev
    exact arp_resolve_payload hp hev

/-- Witness for `pending_payload_netif_safety`: delivering the REPLY `wPkt2`
to a table holding the payload-laden entry for `10.0.0.2` completes without
hitting the null dereference (the drain path runs on `wNif.dev`). -/
theorem pending_payload_netif_safety_witness :
    ∃ r, arp_rx ⟨[wPayloadEntry], 0⟩ wPkt2 wDev 5 (some wNif) 0 = some r ∧
      PayloadHasNetif r.1.table :=
  (pending_payload_netif_safety ⟨[wPayloadEntry], 0⟩
      (by unfold PayloadHasNetif; decide)).1 wPkt2 wDev 5 (some wNif) 0

/-- C5 (failing-interleaving evaluation): the receive handler's
Update-then-Insert sequence is two critical sections — the C unlocks after
`arp_table_update` (arp.c line 285) and re-locks before `arp_table_insert`
(line 291), and the insert never re-checks `arp_table_select`.  Replaying a
reachable schedule on the individual critical sections: thread A's Update for
`10.0.0.2` misses (not merged, no state change); inside A's unlock window,
thread B's `arp_resolve` miss creates the used entry for `10.0.0.2` and
returns `QUERY`; thread A's Insert then creates a second used entry for the
same address, so afterwards two used entries hold `pa = 10.0.0.2` —
contradicting the claimed at-most-one-per-`pa` invariant (spec §8 invariant 1,
and §9's instruction to hold the lock across both steps or re-check). -/
theorem arp_rx_insert_window_duplicate :
    arp_table_update ⟨[wFreeEntry, wFreeEntry], 0⟩ wDev wPa [2, 0, 0, 0, 0, 2] 5
      = some (-1, ⟨[wFreeEntry, wFreeEntry], 0⟩, []) ∧
    (arp_resolve ⟨[wFreeEntry, wFreeEntry], 0⟩ wNif wPa 5 none true 0 []).ret
      = ARP_RESOLVE_QUERY ∧
    ((arp_table_insert
        (arp_resolve ⟨[wFreeEntry, wFreeEntry], 0⟩ wNif wPa 5 none true 0 []).state
        wPa [2, 0, 0, 0, 0, 2] 5).2.1.table).countP (matchesPa wPa) = 2 ∧
    ¬ UniquePa ((arp_table_insert
        (arp_resolve ⟨[wFreeEntry, wFreeEntry], 0⟩ wNif wPa 5 none true 0 []).state
        wPa [2, 0, 0, 0, 0, 2] 5).2.1.table) := by
  refine ⟨by decide, by decide, by decide, ?_⟩
  intro hU
  have h2 : ((arp_table_insert
      (arp_resolve ⟨[wFreeEntry, wFreeEntry], 0⟩ wNif wPa 5 none true 0 []).state
      wPa [2, 0, 0, 0, 0, 2] 5).2.1.table).countP (matchesPa wPa) = 2 := by decide
  have h1 := hU wPa
  omega

end ArpStack

